import Mathlib

/-!
Shallow embedding of `my_model_selectors.py` (HMM model-order selection for
isolated-word sign-language recognition).

The module sweeps candidate hidden-state counts, fits a Gaussian-emission HMM
per candidate through an external library, scores it under a criterion
(constant / BIC / DIC / cross-validated likelihood) and picks the best.

Modelling choices:
* Observation data is a list of feature rows over `ℚ` (floats in the source
  become rationals; the selection logic only compares and does field
  arithmetic on scores).
* The external HMM library (`GaussianHMM(...).fit` and `model.score`) is an
  `Oracle`: a pair of functions `fit : XL → Nat → Option Model` and
  `score : Model → XL → Option ℚ`.  `none` models the exception /
  failure path that `base_model`'s `try/except` (and the per-candidate
  `try/except` of each selector) catches.  Theorems quantify over oracles.
* `np.log` is an abstract parameter `lognat : Nat → ℚ`.
* `np.argmin` / `np.argmax` return the first index attaining the optimum.
* `SelectorCV`'s in-place mutation of `self.X` / `self.lengths` during the
  fold loop is threaded explicitly as a `CVState`.
-/

namespace ASL

/-- Observation matrix: a list of feature rows (`X` in the source). -/
abbrev Obs := List (List ℚ)

/-- An `(X, lengths)` pair as used throughout the source. -/
abbrev XL := Obs × List Nat

/-- The external HMM library boundary (`hmmlearn`'s `GaussianHMM`):
`fit xl n` models `GaussianHMM(n_components=n, ...).fit(X, lengths)`
(`none` = the fit raised), and `score m xl` models `m.score(X, lengths)`
(`none` = scoring raised).  The fixed `random_state` makes fitting a
deterministic function of its inputs, which is what a function models. -/
structure Oracle (Model : Type) where
  fit : XL → Nat → Option Model
  score : Model → XL → Option ℚ

/-- The fields of `ModelSelector.__init__` that the selection logic reads:
`self.sequences`, `self.X`, `self.lengths`, `self.n_constant`,
`self.min_n_components`, `self.max_n_components`. -/
structure Selector where
  sequences : List Obs
  X : Obs
  lengths : List Nat
  n_constant : Nat
  min_n_components : Nat
  max_n_components : Nat

/-- `ModelSelector.base_model(num_states)`: fit on `self.X` / `self.lengths`,
returning the model or `None` when the fit raises. -/
def base_model {M : Type} (o : Oracle M) (s : Selector) (num_states : Nat) :
    Option M :=
  o.fit (s.X, s.lengths) num_states

/-- Python `range(a, b + 1)`: the candidate state counts
`min_n_components, ..., max_n_components` (empty when `b < a`). -/
def pyRange (a b : Nat) : List Nat := List.range' a (b + 1 - a)

/-- `np.argmax`: first index of the maximum value (0 on the empty list,
where numpy would raise; all uses are guarded by non-emptiness). -/
def argmaxIdx : List ℚ → Nat
  | [] => 0
  | [_] => 0
  | x :: y :: ys =>
    if x < (y :: ys).getD (argmaxIdx (y :: ys)) 0 then argmaxIdx (y :: ys) + 1
    else 0

/-- `np.argmin`: first index of the minimum value. -/
def argminIdx : List ℚ → Nat
  | [] => 0
  | [_] => 0
  | x :: y :: ys =>
    if (y :: ys).getD (argminIdx (y :: ys)) 0 < x then argminIdx (y :: ys) + 1
    else 0

/-- `np.mean` of a list of scores. -/
def mean (l : List ℚ) : ℚ := l.sum / l.length

/-- The per-candidate body shared by `SelectorBIC.select` and
`SelectorDIC.select`: `model = self.base_model(n)` followed by
`logL = model.score(self.X, self.lengths)`.  When `base_model` returns
`None`, the `.score` attribute access raises, so the candidate succeeds
exactly when both fit and score succeed. -/
def candLogL {M : Type} (o : Oracle M) (s : Selector) (n : Nat) : Option ℚ :=
  (base_model o s n).bind fun m => o.score m (s.X, s.lengths)

/-! ## SelectorConstant -/

/-- `SelectorConstant.select`: a single `base_model(self.n_constant)`. -/
def selectConstant {M : Type} (o : Oracle M) (s : Selector) : Option M :=
  base_model o s s.n_constant

/-! ## SelectorBIC -/

/-- The parenthesised parameter count of line 101 of the source:
`n*(n-1) + (n-1) + 2*d*n` (computed in ℚ, as Python ints embed in floats). -/
def bicParams (n d : Nat) : ℚ :=
  (n : ℚ) * ((n : ℚ) - 1) + ((n : ℚ) - 1) + 2 * (d : ℚ) * (n : ℚ)

/-- The `(all_n_components, all_scores)` pairs accumulated by the sweep of
`SelectorBIC.select`: for each candidate `n` whose fit and score succeed,
the pair `(n, -2 * logL + p * np.log(N))` with `N, d = self.X.shape`. -/
def bicResults {M : Type} (o : Oracle M) (lognat : Nat → ℚ) (s : Selector) :
    List (Nat × ℚ) :=
  (pyRange s.min_n_components s.max_n_components).filterMap fun n =>
    (candLogL o s n).map fun logL =>
      (n, -2 * logL + bicParams n (s.X.headD []).length * lognat s.X.length)

/-- `best_num_components` of `SelectorBIC.select`:
`all_n_components[np.argmin(all_scores)] if all_scores else self.n_constant`. -/
def bicBest {M : Type} (o : Oracle M) (lognat : Nat → ℚ) (s : Selector) : Nat :=
  let R := bicResults o lognat s
  if R.isEmpty then s.n_constant
  else (R.map Prod.fst).getD (argminIdx (R.map Prod.snd)) 0

/-- `SelectorBIC.select`: the final `self.base_model(best_num_components)`. -/
def selectBIC {M : Type} (o : Oracle M) (lognat : Nat → ℚ) (s : Selector) :
    Option M :=
  base_model o s (bicBest o lognat s)

/-! ## SelectorDIC -/

/-- The `(all_n_components, all_logLs)` pairs accumulated by the sweep of
`SelectorDIC.select` (the running `sum_logL` is their second-component sum). -/
def dicResults {M : Type} (o : Oracle M) (s : Selector) : List (Nat × ℚ) :=
  (pyRange s.min_n_components s.max_n_components).filterMap fun n =>
    (candLogL o s n).map fun logL => (n, logL)

/-- The DIC value computed on line 143 of the source for one candidate's
log-likelihood, given the list of successful results:
`dic = logL - (sum_logL - logL) / M` with `M = len(all_n_components) - 1`. -/
def dicScore (R : List (Nat × ℚ)) (logL : ℚ) : ℚ :=
  logL - ((R.map Prod.snd).sum - logL) / ((R.length - 1 : Nat) : ℚ)

/-- `best_num_components` of `SelectorDIC.select`: with
`M = len(all_n_components) - 1`, argmax of DIC when `M > 1`, the first
successful candidate when `M == 1`, else `self.n_constant`.  (Python's
`M = -1` on an empty list and Lean's truncated `0 - 1 = 0` land in the same
`else` branch.) -/
def dicBest {M : Type} (o : Oracle M) (s : Selector) : Nat :=
  let R := dicResults o s
  let m := R.length - 1
  if 1 < m then
    (R.map Prod.fst).getD (argmaxIdx (R.map fun p => dicScore R p.2)) 0
  else if m = 1 then (R.map Prod.fst).getD 0 0
  else s.n_constant

/-- `SelectorDIC.select`: the final `self.base_model(best_num_components)`. -/
def selectDIC {M : Type} (o : Oracle M) (s : Selector) : Option M :=
  base_model o s (dicBest o s)

/-! ## SelectorCV -/

/-- Modelled from the spec: `combine_sequences` from `asl_utils` (imported by
the source but not part of it) "combine[s] the training-fold sequences into
one ObservationSet": concatenates the sequences selected by the index list
and returns the combined `(X, lengths)`. -/
def combine_sequences (idx : List Nat) (seqs : List Obs) : XL :=
  ((idx.map fun i => seqs.getD i []).flatten,
   (idx.map fun i => seqs.getD i []).map List.length)

/-- One `(cv_train_idx, cv_test_idx)` fold: train indices, test indices. -/
abbrev Fold := List Nat × List Nat

/-- Modelled from the spec: `sklearn.model_selection.KFold()` splitting
("default k=3 per the external splitter's default"), `shuffle=False`:
`n` samples are cut into `k` contiguous test blocks, the first `n % k` of
size `n / k + 1` and the rest of size `n / k`; the train indices are the
complement.  Helper building the folds from a start offset and block sizes. -/
def kfoldBuild (n : Nat) : Nat → List Nat → List Fold
  | _, [] => []
  | start, sz :: rest =>
    (List.range start ++ List.range' (start + sz) (n - (start + sz)),
     List.range' start sz) :: kfoldBuild n (start + sz) rest

/-- Modelled from the spec: `KFold().split(sequences)` with `k = 3`.
`none` models the `ValueError` sklearn raises (at the generator's first
iteration, before any fold body runs) when there are fewer samples than
splits. -/
def kfoldSplit (k n : Nat) : Option (List Fold) :=
  if k ≤ n ∧ 2 ≤ k then
    some (kfoldBuild n 0
      (List.replicate (n % k) (n / k + 1) ++ List.replicate (k - n % k) (n / k)))
  else none

/-- The mutable `self.X` / `self.lengths` buffer that `SelectorCV.select`
overwrites on each fold (line 173 of the source). -/
structure CVState where
  X : Obs
  lengths : List Nat
deriving Repr, DecidableEq

/-- The inner fold loop of `SelectorCV.select` for one candidate `n`:
each fold overwrites `self.X`/`self.lengths` with the combined training
fold, builds the test set, fits via `base_model` (which reads the freshly
overwritten buffer) and scores on the test set.  Returns the state left
behind and `some scores` on success, or `none` when a fold raised (a `None`
model makes `model.score` raise; the mutation up to that point persists). -/
def cvFolds {M : Type} (o : Oracle M) (seqs : List Obs) (n : Nat) :
    List Fold → CVState → List ℚ → CVState × Option (List ℚ)
  | [], st, acc => (st, some acc)
  | (tr, te) :: rest, _st, acc =>
    let trXL := combine_sequences tr seqs
    let teXL := combine_sequences te seqs
    let st' : CVState := ⟨trXL.1, trXL.2⟩
    match o.fit trXL n with
    | none => (st', none)
    | some m =>
      match o.score m teXL with
      | none => (st', none)
      | some sc => cvFolds o seqs n rest st' (acc ++ [sc])

/-- The candidate loop of `SelectorCV.select`, threading the mutated
`self.X`/`self.lengths` and accumulating `(all_n_components, all_scores)`
pairs.  With more than 2 sequences it runs `KFold` cross-validation and
appends the mean fold score; otherwise it fits once on the current buffer
and scores against that same training data. -/
def cvLoop {M : Type} (o : Oracle M) (s : Selector) :
    List Nat → CVState → List (Nat × ℚ) → CVState × List (Nat × ℚ)
  | [], st, acc => (st, acc)
  | n :: rest, st, acc =>
    if 2 < s.sequences.length then
      match kfoldSplit 3 s.sequences.length with
      | none => cvLoop o s rest st acc
      | some folds =>
        match cvFolds o s.sequences n folds st [] with
        | (st', none) => cvLoop o s rest st' acc
        | (st', some scores) => cvLoop o s rest st' (acc ++ [(n, mean scores)])
    else
      match o.fit (st.X, st.lengths) n with
      | none => cvLoop o s rest st acc
      | some m =>
        match o.score m (st.X, st.lengths) with
        | none => cvLoop o s rest st acc
        | some sc => cvLoop o s rest st (acc ++ [(n, sc)])

/-- The `self.X` / `self.lengths` buffer as `SelectorCV.select` leaves it
after the candidate sweep. -/
def cvFinal {M : Type} (o : Oracle M) (s : Selector) : CVState :=
  (cvLoop o s (pyRange s.min_n_components s.max_n_components)
    ⟨s.X, s.lengths⟩ []).1

/-- The `(all_n_components, all_scores)` pairs of `SelectorCV.select`. -/
def cvResults {M : Type} (o : Oracle M) (s : Selector) : List (Nat × ℚ) :=
  (cvLoop o s (pyRange s.min_n_components s.max_n_components)
    ⟨s.X, s.lengths⟩ []).2

/-- `best_num_components` of `SelectorCV.select`:
`all_n_components[np.argmax(all_scores)] if all_scores else self.n_constant`. -/
def cvBest {M : Type} (o : Oracle M) (s : Selector) : Nat :=
  let R := cvResults o s
  if R.isEmpty then s.n_constant
  else (R.map Prod.fst).getD (argmaxIdx (R.map Prod.snd)) 0

/-- `SelectorCV.select`: the final `self.base_model(best_num_components)`,
which reads the buffer as the sweep left it. -/
def selectCV {M : Type} (o : Oracle M) (s : Selector) : Option M :=
  o.fit ((cvFinal o s).X, (cvFinal o s).lengths) (cvBest o s)


/-! ## Stateless per-candidate CV evaluation -/

/-- The fold scores of one candidate, read off statelessly: `some scores`
when every fold fits and scores, `none` as soon as one fold raises. -/
def cvFoldScores {M : Type} (o : Oracle M) (seqs : List Obs) (n : Nat) :
    List Fold → Option (List ℚ)
  | [] => some []
  | (tr, te) :: rest =>
    match o.fit (combine_sequences tr seqs) n with
    | none => none
    | some m =>
      match o.score m (combine_sequences te seqs) with
      | none => none
      | some sc => (cvFoldScores o seqs n rest).map (sc :: ·)

/-- One candidate's complete evaluation in `SelectorCV.select`: the mean
cross-validated score when more than 2 sequences exist (`none` when the
split or any fold raises), otherwise a single fit on the full data scored
against that same training data. -/
def cvEval {M : Type} (o : Oracle M) (s : Selector) (n : Nat) : Option ℚ :=
  if 2 < s.sequences.length then
    match kfoldSplit 3 s.sequences.length with
    | none => none
    | some folds => (cvFoldScores o s.sequences n folds).map mean
  else
    (o.fit (s.X, s.lengths) n).bind fun m => o.score m (s.X, s.lengths)

/-! ## Concrete instances used in counterexamples and witnesses -/

/-- An oracle whose models record the exact training data and state count
they were fitted with: `fit` succeeds when `fitOK` says so and returns the
`(training data, state count)` pair; scores are given by `sc`. -/
def traceOracle (fitOK : XL → Nat → Bool) (sc : XL → Nat → XL → Option ℚ) :
    Oracle (XL × Nat) where
  fit := fun xl n => if fitOK xl n then some (xl, n) else none
  score := fun m xl => sc m.1 m.2 xl

/-- Every fit succeeds; the model with `n` states scores `n` on any data. -/
def idOracle : Oracle Nat := ⟨fun _ n => some n, fun m _ => some ((m : ℚ))⟩

/-- Every fit fails. -/
def failOracle : Oracle Nat := ⟨fun _ _ => none, fun _ _ => none⟩

/-- Every fit succeeds and every score is `0`: ties everywhere. -/
def tieOracle : Oracle Nat := ⟨fun _ n => some n, fun _ _ => some 0⟩

/-- Only the model with 2 states scores (log-likelihood 0); the one with 3
states scores 5; all other scores fail. -/
def cx2o : Oracle Nat :=
  ⟨fun _ n => some n,
   fun m _ => if m = 2 then some 0 else if m = 3 then some 5 else none⟩

/-- Only the model with 2 states fits and scores (log-likelihood 7). -/
def cx4o : Oracle Nat :=
  ⟨fun _ n => some n, fun m _ => if m = 2 then some 7 else none⟩

/-- A one-row word, candidate range `[2, 4]`, `n_constant = 9`. -/
def sel_2_4 : Selector := ⟨[], [[1]], [1], 9, 2, 4⟩

/-- A one-row word, candidate range `[2, 3]`, `n_constant = 7`. -/
def sel_2_3 : Selector := ⟨[], [[1]], [1], 7, 2, 3⟩

/-- A one-row word, candidate range `[2, 5]`, `n_constant = 3`. -/
def sel_2_5 : Selector := ⟨[], [[1]], [1], 3, 2, 5⟩

/-- Scores chosen so that the BIC values (with `np.log` taken as the zero
function) are `120.5`, `110.2`, `115.8` for `n = 2, 3, 4`. -/
def scBICo : Oracle Nat :=
  ⟨fun _ n => some n,
   fun m _ => if m = 2 then some (-241/4)
     else if m = 3 then some (-551/10) else some (-579/10)⟩

/-- The "JOHN" scenario: 10 example sequences and candidate range `[2, 4]`. -/
def scBICs : Selector := ⟨List.replicate 10 [[1]], [[1], [2]], [1, 1], 3, 2, 4⟩

/-- A word with three one-frame example sequences and the single candidate
`n = 2`, fitted through the tracing oracle. -/
def cx1o : Oracle (XL × Nat) :=
  traceOracle (fun _ _ => true) (fun _ _ _ => some 1)

/-- Selector for the word with three example sequences. -/
def cx1s : Selector :=
  ⟨[[[0]], [[1]], [[2]]], [[0], [1], [2]], [1, 1, 1], 3, 2, 2⟩

/-- A word with exactly two example sequences, candidate range `[2, 3]`. -/
def w8s : Selector := ⟨[[[1]], [[2]]], [[1], [2]], [1, 1], 3, 2, 3⟩

/-! ## Helper lemmas: `argmaxIdx` and `argminIdx` are first-optimum indices -/

theorem argmaxIdx_lt : ∀ (l : List ℚ), l ≠ [] → argmaxIdx l < l.length
  | [_], _ => by simp [argmaxIdx]
  | x :: y :: ys, _ => by
    have ih := argmaxIdx_lt (y :: ys) (List.cons_ne_nil y ys)
    simp only [argmaxIdx]
    split
    · simpa using Nat.succ_lt_succ ih
    · simp

theorem le_getD_argmaxIdx : ∀ (l : List ℚ) (j : Nat), j < l.length →
    l.getD j 0 ≤ l.getD (argmaxIdx l) 0
  | [_], 0, _ => le_refl _
  | x :: y :: ys, j, hj => by
    simp only [argmaxIdx]
    split
    case isTrue h =>
      cases j with
      | zero =>
        simpa only [List.getD_cons_zero, List.getD_cons_succ] using le_of_lt h
      | succ j =>
        simp only [List.getD_cons_succ]
        exact le_getD_argmaxIdx (y :: ys) j (by simpa using hj)
    case isFalse h =>
      cases j with
      | zero => simp
      | succ j =>
        simp only [List.getD_cons_succ, List.getD_cons_zero]
        exact le_trans
          (le_getD_argmaxIdx (y :: ys) j (by simpa using hj)) (not_lt.mp h)

theorem argmaxIdx_le_of_ge : ∀ (l : List ℚ) (j : Nat), j < l.length →
    l.getD (argmaxIdx l) 0 ≤ l.getD j 0 → argmaxIdx l ≤ j
  | [_], j, _, _ => by simp [argmaxIdx]
  | x :: y :: ys, j, hj, hge => by
    simp only [argmaxIdx] at hge ⊢
    split
    case isTrue h =>
      rw [if_pos h] at hge
      cases j with
      | zero =>
        exact absurd (lt_of_lt_of_le h (by simpa using hge)) (lt_irrefl x)
      | succ j =>
        simp only [List.getD_cons_succ] at hge
        exact Nat.succ_le_succ
          (argmaxIdx_le_of_ge (y :: ys) j (by simpa using hj) hge)
    case isFalse h => exact Nat.zero_le j

theorem argminIdx_lt : ∀ (l : List ℚ), l ≠ [] → argminIdx l < l.length
  | [_], _ => by simp [argminIdx]
  | x :: y :: ys, _ => by
    have ih := argminIdx_lt (y :: ys) (List.cons_ne_nil y ys)
    simp only [argminIdx]
    split
    · simpa using Nat.succ_lt_succ ih
    · simp

theorem getD_argminIdx_le : ∀ (l : List ℚ) (j : Nat), j < l.length →
    l.getD (argminIdx l) 0 ≤ l.getD j 0
  | [_], 0, _ => le_refl _
  | x :: y :: ys, j, hj => by
    simp only [argminIdx]
    split
    case isTrue h =>
      cases j with
      | zero =>
        simpa only [List.getD_cons_zero, List.getD_cons_succ] using le_of_lt h
      | succ j =>
        simp only [List.getD_cons_succ]
        exact getD_argminIdx_le (y :: ys) j (by simpa using hj)
    case isFalse h =>
      cases j with
      | zero => simp
      | succ j =>
        simp only [List.getD_cons_succ, List.getD_cons_zero]
        exact le_trans (not_lt.mp h)
          (getD_argminIdx_le (y :: ys) j (by simpa using hj))

theorem argminIdx_le_of_le : ∀ (l : List ℚ) (j : Nat), j < l.length →
    l.getD j 0 ≤ l.getD (argminIdx l) 0 → argminIdx l ≤ j
  | [_], j, _, _ => by simp [argminIdx]
  | x :: y :: ys, j, hj, hge => by
    simp only [argminIdx] at hge ⊢
    split
    case isTrue h =>
      rw [if_pos h] at hge
      cases j with
      | zero =>
        exact absurd (lt_of_le_of_lt (by simpa using hge) h) (lt_irrefl x)
      | succ j =>
        simp only [List.getD_cons_succ] at hge
        exact Nat.succ_le_succ
          (argminIdx_le_of_le (y :: ys) j (by simpa using hj) hge)
    case isFalse h => exact Nat.zero_le j

/-! ## CV loop characterization

The lemmas here prove that the stateful fold loop (`cvFolds` / `cvLoop`)
computes exactly the stateless per-candidate values `cvFoldScores` /
`cvEval`, and track what happens to the mutated `self.X` / `self.lengths`
buffer. -/

theorem cvFolds_snd {M : Type} (o : Oracle M) (seqs : List Obs) (n : Nat) :
    ∀ (folds : List Fold) (st : CVState) (acc : List ℚ),
    (cvFolds o seqs n folds st acc).2 =
      (cvFoldScores o seqs n folds).map (acc ++ ·)
  | [], _, _ => by simp [cvFolds, cvFoldScores]
  | (tr, te) :: rest, st, acc => by
    simp only [cvFolds, cvFoldScores]
    cases o.fit (combine_sequences tr seqs) n with
    | none => simp
    | some m =>
      dsimp only
      cases o.score m (combine_sequences te seqs) with
      | none => simp
      | some sc =>
        dsimp only
        rw [cvFolds_snd o seqs n rest _ (acc ++ [sc])]
        cases cvFoldScores o seqs n rest with
        | none => simp
        | some res => simp

theorem cvLoop_fst_of_le_two {M : Type} (o : Oracle M) (s : Selector)
    (hle : s.sequences.length ≤ 2) :
    ∀ (cands : List Nat) (st : CVState) (acc : List (Nat × ℚ)),
    (cvLoop o s cands st acc).1 = st
  | [], _, _ => rfl
  | n :: rest, st, acc => by
    simp only [cvLoop, if_neg (not_lt.mpr hle)]
    cases o.fit (st.X, st.lengths) n with
    | none => exact cvLoop_fst_of_le_two o s hle rest st acc
    | some m =>
      dsimp only
      cases o.score m (st.X, st.lengths) with
      | none => exact cvLoop_fst_of_le_two o s hle rest st acc
      | some sc =>
        dsimp only
        exact cvLoop_fst_of_le_two o s hle rest st _

theorem cvLoop_snd {M : Type} (o : Oracle M) (s : Selector) :
    ∀ (cands : List Nat) (st : CVState) (acc : List (Nat × ℚ)),
    (s.sequences.length ≤ 2 → st = ⟨s.X, s.lengths⟩) →
    (cvLoop o s cands st acc).2 =
      acc ++ cands.filterMap fun n => (cvEval o s n).map ((n, ·))
  | [], _, acc, _ => by simp [cvLoop]
  | n :: rest, st, acc, hst => by
    rw [List.filterMap_cons]
    by_cases h2 : 2 < s.sequences.length
    case pos =>
      have hvac : ∀ st' : CVState,
          s.sequences.length ≤ 2 → st' = ⟨s.X, s.lengths⟩ :=
        fun _ hle => absurd h2 (not_lt.mpr hle)
      cases hkf : kfoldSplit 3 s.sequences.length with
      | none =>
        have hev : cvEval o s n = none := by
          simp only [cvEval, if_pos h2, hkf]
        rw [hev]
        simp only [Option.map_none']
        simp only [cvLoop, if_pos h2, hkf]
        exact cvLoop_snd o s rest st acc hst
      | some folds =>
        have hsnd := cvFolds_snd o s.sequences n folds st []
        simp only [cvLoop, if_pos h2, hkf]
        rcases hcv : cvFolds o s.sequences n folds st [] with ⟨st', res⟩
        rw [hcv] at hsnd
        simp only [List.nil_append] at hsnd
        cases hfs : cvFoldScores o s.sequences n folds with
        | none =>
          have hev : cvEval o s n = none := by
            simp only [cvEval, if_pos h2, hkf, hfs, Option.map_none']
          rw [hfs, Option.map_none'] at hsnd
          have hres : res = none := hsnd
          subst hres
          rw [hev]
          dsimp only
          simp only [Option.map_none']
          exact cvLoop_snd o s rest st' acc (hvac st')
        | some scores =>
          have hev : cvEval o s n = some (mean scores) := by
            simp only [cvEval, if_pos h2, hkf, hfs, Option.map_some']
          rw [hfs, Option.map_some'] at hsnd
          have hres : res = some scores := by
            simpa using hsnd
          subst hres
          rw [hev]
          dsimp only
          simp only [Option.map_some']
          rw [cvLoop_snd o s rest st' (acc ++ [(n, mean scores)]) (hvac st')]
          simp
    case neg =>
      have hinit : st = ⟨s.X, s.lengths⟩ := hst (not_lt.mp h2)
      subst hinit
      have hev : cvEval o s n =
          (o.fit (s.X, s.lengths) n).bind fun m =>
            o.score m (s.X, s.lengths) := by
        simp only [cvEval, if_neg h2]
      simp only [cvLoop, if_neg h2]
      cases hfit : o.fit (s.X, s.lengths) n with
      | none =>
        rw [hev, hfit]
        simp only [Option.none_bind, Option.map_none']
        exact cvLoop_snd o s rest _ acc hst
      | some m =>
        dsimp only
        cases hsc : o.score m (s.X, s.lengths) with
        | none =>
          rw [hev, hfit]
          simp only [Option.some_bind, hsc, Option.map_none']
          exact cvLoop_snd o s rest _ acc hst
        | some sc =>
          dsimp only
          rw [hev, hfit]
          simp only [Option.some_bind, hsc, Option.map_some']
          rw [cvLoop_snd o s rest _ (acc ++ [(n, sc)]) hst]
          simp

/-- The `(all_n_components, all_scores)` list of `SelectorCV.select` is the
stateless per-candidate evaluation over the candidate range. -/
theorem cvResults_eq {M : Type} (o : Oracle M) (s : Selector) :
    cvResults o s =
      (pyRange s.min_n_components s.max_n_components).filterMap fun n =>
        (cvEval o s n).map ((n, ·)) := by
  unfold cvResults
  rw [cvLoop_snd o s _ _ _ (fun _ => rfl)]
  simp

/-- With at most two sequences the sweep never touches the buffer. -/
theorem cvFinal_of_le_two {M : Type} (o : Oracle M) (s : Selector)
    (hle : s.sequences.length ≤ 2) : cvFinal o s = ⟨s.X, s.lengths⟩ := by
  unfold cvFinal
  exact cvLoop_fst_of_le_two o s hle _ _ _

/-! ## Helper lemmas: sorted candidate lists and optimal-choice properties -/

theorem pyRange_pairwise (a b : Nat) : (pyRange a b).Pairwise (· < ·) :=
  List.pairwise_lt_range' a (b + 1 - a)

theorem map_fst_filterMap_sublist {α β : Type _} (l : List α)
    (f : α → Option (α × β)) (hf : ∀ a p, f a = some p → p.1 = a) :
    ((l.filterMap f).map Prod.fst).Sublist l := by
  induction l with
  | nil => simp
  | cons a l ih =>
    rw [List.filterMap_cons]
    cases hfa : f a with
    | none => exact List.Sublist.cons _ ih
    | some p =>
      rw [List.map_cons, hf a p hfa]
      exact List.Sublist.cons₂ _ ih

theorem getD_mono_of_pairwise_lt (l : List Nat) (hl : l.Pairwise (· < ·))
    {i j : Nat} (hij : i ≤ j) (hj : j < l.length) : l.getD i 0 ≤ l.getD j 0 := by
  have hi : i < l.length := lt_of_le_of_lt hij hj
  rcases Nat.lt_or_ge i j with hlt | hge
  · rw [List.getD_eq_getElem l 0 hi, List.getD_eq_getElem l 0 hj]
    exact le_of_lt (List.pairwise_iff_getElem.mp hl i j hi hj hlt)
  · have hij' : i = j := le_antisymm hij hge
    subst hij'
    exact le_refl _

theorem getD_map_eq {β : Type _} (R : List (Nat × ℚ)) (f : Nat × ℚ → β) (d : β)
    {j : Nat} (hj : j < R.length) :
    (R.map f).getD j d = f (R.get ⟨j, hj⟩) := by
  rw [List.getD_eq_getElem _ _ (by simpa using hj), List.getElem_map,
    List.get_eq_getElem]

theorem argmax_choice (R : List (Nat × ℚ)) (f : Nat × ℚ → ℚ) (hR : R ≠ []) :
    ∃ p ∈ R, (R.map Prod.fst).getD (argmaxIdx (R.map f)) 0 = p.1 ∧
      ∀ q ∈ R, f q ≤ f p := by
  have hne : R.map f ≠ [] := by simpa using hR
  have hidx : argmaxIdx (R.map f) < R.length := by
    simpa using argmaxIdx_lt (R.map f) hne
  refine ⟨R.get ⟨argmaxIdx (R.map f), hidx⟩, List.get_mem R _ _, ?_, ?_⟩
  · exact getD_map_eq R Prod.fst 0 hidx
  · intro q hq
    obtain ⟨⟨j, hj⟩, rfl⟩ := List.mem_iff_get.mp hq
    rw [← getD_map_eq R f 0 hj, ← getD_map_eq R f 0 hidx]
    exact le_getD_argmaxIdx (R.map f) j (by simpa using hj)

theorem argmax_first_le (R : List (Nat × ℚ)) (f : Nat × ℚ → ℚ)
    (hsort : (R.map Prod.fst).Pairwise (· < ·)) :
    ∀ p ∈ R, (∀ q ∈ R, f q ≤ f p) →
      (R.map Prod.fst).getD (argmaxIdx (R.map f)) 0 ≤ p.1 := by
  intro p hp hmax
  obtain ⟨⟨j, hj⟩, rfl⟩ := List.mem_iff_get.mp hp
  have hne : R.map f ≠ [] := by
    intro h
    rw [List.map_eq_nil_iff] at h
    subst h
    exact absurd hj (by simp)
  have hidx : argmaxIdx (R.map f) < R.length := by
    simpa using argmaxIdx_lt (R.map f) hne
  have hmaxv : (R.map f).getD (argmaxIdx (R.map f)) 0 ≤ (R.map f).getD j 0 := by
    rw [getD_map_eq R f 0 hj, getD_map_eq R f 0 hidx]
    exact hmax _ (List.get_mem R _ _)
  have hle : argmaxIdx (R.map f) ≤ j :=
    argmaxIdx_le_of_ge (R.map f) j (by simpa using hj) hmaxv
  calc (R.map Prod.fst).getD (argmaxIdx (R.map f)) 0
      ≤ (R.map Prod.fst).getD j 0 :=
        getD_mono_of_pairwise_lt _ hsort hle (by simpa using hj)
    _ = (R.get ⟨j, hj⟩).1 := getD_map_eq R Prod.fst 0 hj

theorem argmin_choice (R : List (Nat × ℚ)) (f : Nat × ℚ → ℚ) (hR : R ≠ []) :
    ∃ p ∈ R, (R.map Prod.fst).getD (argminIdx (R.map f)) 0 = p.1 ∧
      ∀ q ∈ R, f p ≤ f q := by
  have hne : R.map f ≠ [] := by simpa using hR
  have hidx : argminIdx (R.map f) < R.length := by
    simpa using argminIdx_lt (R.map f) hne
  refine ⟨R.get ⟨argminIdx (R.map f), hidx⟩, List.get_mem R _ _, ?_, ?_⟩
  · exact getD_map_eq R Prod.fst 0 hidx
  · intro q hq
    obtain ⟨⟨j, hj⟩, rfl⟩ := List.mem_iff_get.mp hq
    rw [← getD_map_eq R f 0 hj, ← getD_map_eq R f 0 hidx]
    exact getD_argminIdx_le (R.map f) j (by simpa using hj)

theorem argmin_first_le (R : List (Nat × ℚ)) (f : Nat × ℚ → ℚ)
    (hsort : (R.map Prod.fst).Pairwise (· < ·)) :
    ∀ p ∈ R, (∀ q ∈ R, f p ≤ f q) →
      (R.map Prod.fst).getD (argminIdx (R.map f)) 0 ≤ p.1 := by
  intro p hp hmin
  obtain ⟨⟨j, hj⟩, rfl⟩ := List.mem_iff_get.mp hp
  have hne : R.map f ≠ [] := by
    intro h
    rw [List.map_eq_nil_iff] at h
    subst h
    exact absurd hj (by simp)
  have hidx : argminIdx (R.map f) < R.length := by
    simpa using argminIdx_lt (R.map f) hne
  have hminv : (R.map f).getD j 0 ≤ (R.map f).getD (argminIdx (R.map f)) 0 := by
    rw [getD_map_eq R f 0 hj, getD_map_eq R f 0 hidx]
    exact hmin _ (List.get_mem R _ _)
  have hle : argminIdx (R.map f) ≤ j :=
    argminIdx_le_of_le (R.map f) j (by simpa using hj) hminv
  calc (R.map Prod.fst).getD (argminIdx (R.map f)) 0
      ≤ (R.map Prod.fst).getD j 0 :=
        getD_mono_of_pairwise_lt _ hsort hle (by simpa using hj)
    _ = (R.get ⟨j, hj⟩).1 := getD_map_eq R Prod.fst 0 hj

/-! ## Claims -/

/-- C7: `SelectorConstant.select` performs exactly the single fit at
`self.n_constant` on the full data and returns its result — the fitted
model on success, the failure indicator when that one fit fails.  On the
tracing oracle this makes the returned model's recorded training data and
state count exactly `((self.X, self.lengths), n_constant)`: never any other
state count, and no second fit attempt exists to fall back to. -/
theorem spec_C7 :
    (∀ (M : Type) (o : Oracle M) (s : Selector),
      selectConstant o s = o.fit (s.X, s.lengths) s.n_constant)
    ∧ (∀ (fitOK : XL → Nat → Bool) (sc : XL → Nat → XL → Option ℚ)
        (s : Selector),
        selectConstant (traceOracle fitOK sc) s =
          if fitOK (s.X, s.lengths) s.n_constant then
            some ((s.X, s.lengths), s.n_constant)
          else none) := by
  exact ⟨fun M o s => rfl, fun fitOK sc s => rfl⟩

/-- C3: in `SelectorDIC.select`, when exactly 2 candidates succeed
(`M = 1`), the first successful candidate's state count is selected — no
DIC argmax is computed — and the model is refit there; when 0 or 1
candidates succeed, the constant default `n_constant` is used. -/
theorem spec_C3 (M : Type) (o : Oracle M) (s : Selector) :
    ((dicResults o s).length = 2 →
      dicBest o s = ((dicResults o s).headD (0, 0)).1 ∧
      selectDIC o s = base_model o s ((dicResults o s).headD (0, 0)).1)
    ∧ ((dicResults o s).length ≤ 1 →
      dicBest o s = s.n_constant ∧
      selectDIC o s = base_model o s s.n_constant) := by
  constructor
  · intro h2
    have hbest : dicBest o s = ((dicResults o s).headD (0, 0)).1 := by
      rcases hR : dicResults o s with _ | ⟨p, t⟩
      · rw [hR] at h2
        simp at h2
      · have hlen : (p :: t).length = 2 := by rw [← hR, h2]
        simp only [dicBest, hR, hlen]
        norm_num
    exact ⟨hbest, by rw [selectDIC, hbest]⟩
  · intro h1
    have hm : (dicResults o s).length - 1 = 0 := by omega
    have hbest : dicBest o s = s.n_constant := by
      simp only [dicBest, hm]
      norm_num
    exact ⟨hbest, by rw [selectDIC, hbest]⟩

/-- C3 witness: with `idOracle` both candidates 2 and 3 succeed, so the
first (n = 2) is selected; with `failOracle` nothing succeeds, so the
constant default 7 is selected. -/
theorem spec_C3_witness :
    dicBest idOracle sel_2_3 = 2 ∧ dicBest failOracle sel_2_3 = 7 := by
  constructor
  · have h := (spec_C3 Nat idOracle sel_2_3).1 (by
      norm_num [dicResults, pyRange, List.range', candLogL, base_model,
        idOracle, sel_2_3, List.filterMap_cons])
    rw [h.1]
    norm_num [dicResults, pyRange, List.range', candLogL, base_model,
      idOracle, sel_2_3, List.filterMap_cons]
  · have h := (spec_C3 Nat failOracle sel_2_3).2 (by
      norm_num [dicResults, pyRange, List.range', candLogL, base_model,
        failOracle, sel_2_3, List.filterMap_cons])
    rw [h.1]
    rfl

/-- C4 counterexample: with exactly one successful candidate (n = 2,
log-likelihood 7) and `n_constant = 3`, `SelectorDIC.select` picks the
constant default 3, not the single available candidate 2 — refuting the
claim that it falls back to the single available candidate. -/
theorem spec_C4_cx :
    dicResults cx4o sel_2_5 = [(2, 7)] ∧
    dicBest cx4o sel_2_5 = sel_2_5.n_constant ∧
    dicBest cx4o sel_2_5 ≠ 2 := by
  have hres : dicResults cx4o sel_2_5 = [(2, 7)] := by
    norm_num [dicResults, pyRange, List.range', candLogL, base_model,
      cx4o, sel_2_5, List.filterMap_cons]
  have hbest : dicBest cx4o sel_2_5 = 3 := by
    simp only [dicBest, hres]
    norm_num [sel_2_5]
  exact ⟨hres, hbest, by rw [hbest]; norm_num⟩

/-- C4 (amended): when exactly one candidate succeeds, `SelectorDIC.select`
falls back to the constant default `n_constant` (the single successful
candidate is not selected); the fallback to the constant default also
covers the zero-success case. -/
theorem spec_C4 (M : Type) (o : Oracle M) (s : Selector)
    (h1 : (dicResults o s).length ≤ 1) :
    dicBest o s = s.n_constant ∧
    selectDIC o s = base_model o s s.n_constant := by
  have hm : (dicResults o s).length - 1 = 0 := by omega
  have hbest : dicBest o s = s.n_constant := by
    simp only [dicBest, hm]
    norm_num
  exact ⟨hbest, by rw [selectDIC, hbest]⟩

/-- C4 witness: the amended statement applied to the one-success run. -/
theorem spec_C4_witness :
    dicBest cx4o sel_2_5 = sel_2_5.n_constant ∧
    selectDIC cx4o sel_2_5 = base_model cx4o sel_2_5 sel_2_5.n_constant :=
  spec_C4 Nat cx4o sel_2_5 (by
    norm_num [dicResults, pyRange, List.range', candLogL, base_model,
      cx4o, sel_2_5, List.filterMap_cons])

/-- C2 counterexample: a run with exactly two successful candidates,
`(2, logL 0)` and `(3, logL 5)`.  `SelectorDIC.select` selects n = 2 (the
first), yet the DIC value of the n = 3 candidate is strictly larger, so
the selected count does not maximize DIC — refuting the claim for "at
least two" successful candidates. -/
theorem spec_C2_cx :
    dicResults cx2o sel_2_3 = [(2, 0), (3, 5)] ∧
    dicBest cx2o sel_2_3 = 2 ∧
    dicScore (dicResults cx2o sel_2_3) 0 < dicScore (dicResults cx2o sel_2_3) 5 := by
  have hres : dicResults cx2o sel_2_3 = [(2, 0), (3, 5)] := by
    norm_num [dicResults, pyRange, List.range', candLogL, base_model,
      cx2o, sel_2_3, List.filterMap_cons]
  refine ⟨hres, ?_, ?_⟩
  · simp only [dicBest, hres]
    norm_num
  · rw [hres]
    norm_num [dicScore]

/-- C2 (amended): for every run in which at least three candidate state
counts fit and score successfully, the selected state count is one that
maximizes `DIC(n) = logL(n) − (1/M)·Σ_{other} logL` with
`M = (successes − 1)`, and the model is refit at that count and
returned. -/
theorem spec_C2 (M : Type) (o : Oracle M) (s : Selector)
    (h3 : 3 ≤ (dicResults o s).length) :
    ∃ p ∈ dicResults o s,
      dicBest o s = p.1 ∧
      (∀ q ∈ dicResults o s,
        dicScore (dicResults o s) q.2 ≤ dicScore (dicResults o s) p.2) ∧
      selectDIC o s = base_model o s p.1 := by
  have hne : dicResults o s ≠ [] := by
    intro h
    rw [h] at h3
    simp at h3
  obtain ⟨p, hp, heq, hmax⟩ :=
    argmax_choice (dicResults o s) (fun q => dicScore (dicResults o s) q.2) hne
  have h1 : 1 < (dicResults o s).length - 1 := by omega
  have hbest : dicBest o s = p.1 := by
    simp only [dicBest, if_pos h1]
    exact heq
  exact ⟨p, hp, hbest, hmax, by rw [selectDIC, hbest]⟩

/-- C2 witness: with `idOracle` all of n = 2, 3, 4 succeed, and the
selected count is one of the successful candidates. -/
theorem spec_C2_witness :
    dicBest idOracle sel_2_4 ∈ (dicResults idOracle sel_2_4).map Prod.fst := by
  obtain ⟨p, hp, hbest, -, -⟩ := spec_C2 Nat idOracle sel_2_4 (by
    norm_num [dicResults, pyRange, List.range', candLogL, base_model,
      idOracle, sel_2_4, List.filterMap_cons])
  rw [hbest]
  exact List.mem_map_of_mem Prod.fst hp


/-- C5: `SelectorBIC.select` selects a candidate minimizing BIC among the
successful candidates in `[min_n_components, max_n_components]` and refits
at the chosen count; when no candidate succeeds it uses the constant
default.  In the "JOHN" scenario with BIC scores
`[120.5 (n=2), 110.2 (n=3), 115.8 (n=4)]`, the selected count is 3. -/
theorem spec_C5 :
    (∀ (M : Type) (o : Oracle M) (lognat : Nat → ℚ) (s : Selector),
      (bicResults o lognat s ≠ [] →
        ∃ p ∈ bicResults o lognat s,
          bicBest o lognat s = p.1 ∧
          (∀ q ∈ bicResults o lognat s, p.2 ≤ q.2) ∧
          selectBIC o lognat s = base_model o s p.1)
      ∧ (bicResults o lognat s = [] →
          selectBIC o lognat s = base_model o s s.n_constant))
    ∧ bicResults scBICo (fun _ => 0) scBICs =
        [(2, 120.5), (3, 110.2), (4, 115.8)]
    ∧ bicBest scBICo (fun _ => 0) scBICs = 3 := by
  have hscen : bicResults scBICo (fun _ => 0) scBICs =
      [(2, 120.5), (3, 110.2), (4, 115.8)] := by
    norm_num [bicResults, pyRange, List.range', candLogL, base_model,
      scBICo, scBICs, List.filterMap_cons, bicParams]
  refine ⟨?_, hscen, ?_⟩
  · intro M o lognat s
    constructor
    · intro hne
      obtain ⟨p, hp, heq, hmin⟩ :=
        argmin_choice (bicResults o lognat s) Prod.snd hne
      have hemp : (bicResults o lognat s).isEmpty = false :=
        List.isEmpty_eq_false.mpr hne
      have hbest : bicBest o lognat s = p.1 := by
        simp only [bicBest, hemp, Bool.false_eq_true, if_false]
        exact heq
      exact ⟨p, hp, hbest, hmin, by rw [selectBIC, hbest]⟩
    · intro hnil
      have hbest : bicBest o lognat s = s.n_constant := by
        simp only [bicBest, hnil, List.isEmpty_nil, if_true]
      rw [selectBIC, hbest]
  · simp only [bicBest, hscen]
    norm_num [argminIdx]

/-- C5 witness: in the "JOHN" scenario the sweep is non-empty and the
selected count is one of the successful candidates. -/
theorem spec_C5_witness :
    bicBest scBICo (fun _ => 0) scBICs ∈
      (bicResults scBICo (fun _ => 0) scBICs).map Prod.fst := by
  obtain ⟨p, hp, hbest, -, -⟩ :=
    (spec_C5.1 Nat scBICo (fun _ => 0) scBICs).1 (by
      rw [spec_C5.2.1]
      simp)
  rw [hbest]
  exact List.mem_map_of_mem Prod.fst hp

/-- C6: the score recorded by `SelectorBIC.select` for a successful
candidate with `n` states is exactly `−2·logL + p·ln(N)` with
`N` the number of observation rows, `d` the feature dimensionality and
`p = n·(n−1) + (n−1) + 2·d·n`: membership in the sweep's result list is
equivalent to the candidate being in range, fit-and-score succeeding, and
the score being given by that formula. -/
theorem spec_C6 (M : Type) (o : Oracle M) (lognat : Nat → ℚ) (s : Selector)
    (n : Nat) (b : ℚ) :
    (n, b) ∈ bicResults o lognat s ↔
      n ∈ pyRange s.min_n_components s.max_n_components ∧
      ∃ logL, candLogL o s n = some logL ∧
        b = -2 * logL +
          bicParams n (s.X.headD []).length * lognat s.X.length := by
  simp only [bicResults, List.mem_filterMap, Option.map_eq_some']
  constructor
  · rintro ⟨a, ha, logL, hcand, heq⟩
    rw [Prod.ext_iff] at heq
    obtain ⟨h1, h2⟩ := heq
    dsimp only at h1 h2
    subst h1
    exact ⟨ha, logL, hcand, h2.symm⟩
  · rintro ⟨hn, logL, hcand, rfl⟩
    exact ⟨n, hn, logL, hcand, rfl⟩


/-- C8: with at most two example sequences, `SelectorCV.select` does no
fold-splitting: every candidate is fit once on the full data and scored
once against that same training data, the mutable buffer is left untouched,
and a second `select()` run on the object as the first run left it picks
the same state count. -/
theorem spec_C8 (M : Type) (o : Oracle M) (s : Selector)
    (hle : s.sequences.length ≤ 2) :
    cvResults o s =
      (pyRange s.min_n_components s.max_n_components).filterMap
        (fun n => ((o.fit (s.X, s.lengths) n).bind fun m =>
          o.score m (s.X, s.lengths)).map ((n, ·)))
    ∧ cvFinal o s = ⟨s.X, s.lengths⟩
    ∧ cvBest o { s with X := (cvFinal o s).X
                        lengths := (cvFinal o s).lengths } = cvBest o s := by
  have h2 : ¬ 2 < s.sequences.length := not_lt.mpr hle
  refine ⟨?_, cvFinal_of_le_two o s hle, ?_⟩
  · rw [cvResults_eq]
    simp only [cvEval, if_neg h2]
  · rw [cvFinal_of_le_two o s hle]

/-- C8 witness: the two-sequence word, where the buffer is untouched and
re-running selects the same count. -/
theorem spec_C8_witness :
    cvFinal idOracle w8s = ⟨w8s.X, w8s.lengths⟩ ∧
    cvBest idOracle { w8s with X := (cvFinal idOracle w8s).X
                               lengths := (cvFinal idOracle w8s).lengths } =
      cvBest idOracle w8s := by
  have h := spec_C8 Nat idOracle w8s (by norm_num [w8s])
  exact ⟨h.2.1, h.2.2⟩

/-- C9: per-candidate fit/score failures never escape the sweep of any
selector: a failed candidate is merely excluded from the successful results
(for BIC and DIC a candidate with no log-likelihood, for CV a candidate
whose whole evaluation fails), and only when every candidate in the range
fails does the result change to the constant-default fallback — whose own
fit failure surfaces as the `None` failure indicator of `base_model`, not
as an exception. -/
theorem spec_C9 (M : Type) (o : Oracle M) (lognat : Nat → ℚ) (s : Selector) :
    ((∀ n ∈ pyRange s.min_n_components s.max_n_components,
        candLogL o s n = none) →
      selectBIC o lognat s = base_model o s s.n_constant ∧
      selectDIC o s = base_model o s s.n_constant)
    ∧ (∀ n : Nat, candLogL o s n = none →
        n ∉ (bicResults o lognat s).map Prod.fst ∧
        n ∉ (dicResults o s).map Prod.fst)
    ∧ (∀ n : Nat, cvEval o s n = none →
        n ∉ (cvResults o s).map Prod.fst)
    ∧ ((∀ n ∈ pyRange s.min_n_components s.max_n_components,
        cvEval o s n = none) →
      cvResults o s = [] ∧
      selectCV o s =
        o.fit ((cvFinal o s).X, (cvFinal o s).lengths) s.n_constant) := by
  refine ⟨?_, ?_, ?_, ?_⟩
  · intro hall
    have hbic : bicResults o lognat s = [] := by
      rw [bicResults, List.filterMap_eq_nil_iff]
      intro a ha
      rw [hall a ha]
      rfl
    have hdic : dicResults o s = [] := by
      rw [dicResults, List.filterMap_eq_nil_iff]
      intro a ha
      rw [hall a ha]
      rfl
    constructor
    · have hbest : bicBest o lognat s = s.n_constant := by
        simp only [bicBest, hbic, List.isEmpty_nil, if_true]
      rw [selectBIC, hbest]
    · have hm : (dicResults o s).length - 1 = 0 := by
        rw [hdic]
        rfl
      have hbest : dicBest o s = s.n_constant := by
        simp only [dicBest, hm]
        norm_num
      rw [selectDIC, hbest]
  · intro n hnone
    constructor
    · intro hmem
      rw [List.mem_map] at hmem
      obtain ⟨p, hp, hfst⟩ := hmem
      rw [bicResults, List.mem_filterMap] at hp
      obtain ⟨a, ha, hfa⟩ := hp
      rcases Option.map_eq_some'.mp hfa with ⟨l, hl, heq⟩
      rw [← heq] at hfst
      dsimp only at hfst
      subst hfst
      rw [hnone] at hl
      exact Option.noConfusion hl
    · intro hmem
      rw [List.mem_map] at hmem
      obtain ⟨p, hp, hfst⟩ := hmem
      rw [dicResults, List.mem_filterMap] at hp
      obtain ⟨a, ha, hfa⟩ := hp
      rcases Option.map_eq_some'.mp hfa with ⟨l, hl, heq⟩
      rw [← heq] at hfst
      dsimp only at hfst
      subst hfst
      rw [hnone] at hl
      exact Option.noConfusion hl
  · intro n hnone hmem
    rw [List.mem_map] at hmem
    obtain ⟨p, hp, hfst⟩ := hmem
    rw [cvResults_eq, List.mem_filterMap] at hp
    obtain ⟨a, ha, hfa⟩ := hp
    rcases Option.map_eq_some'.mp hfa with ⟨v, hv, heq⟩
    rw [← heq] at hfst
    dsimp only at hfst
    subst hfst
    rw [hnone] at hv
    exact Option.noConfusion hv
  · intro hall
    have hres : cvResults o s = [] := by
      rw [cvResults_eq, List.filterMap_eq_nil_iff]
      intro a ha
      rw [hall a ha]
      rfl
    have hbest : cvBest o s = s.n_constant := by
      simp only [cvBest, hres, List.isEmpty_nil, if_true]
    exact ⟨hres, by rw [selectCV, hbest]⟩

/-- C9 witness: with the always-failing oracle, BIC falls back to a plain
`base_model` at `n_constant` (which surfaces `None`), and the CV sweep
collects no results. -/
theorem spec_C9_witness :
    selectBIC failOracle (fun _ => 0) sel_2_3 =
      base_model failOracle sel_2_3 sel_2_3.n_constant ∧
    cvResults failOracle sel_2_3 = [] := by
  have h := spec_C9 Nat failOracle (fun _ => 0) sel_2_3
  exact ⟨(h.1 (fun n _ => rfl)).1, (h.2.2.2 (fun n _ => rfl)).1⟩

/-- C1 counterexample: the word has three example sequences, so the fold
loop runs and overwrites `self.X` / `self.lengths`; the final refit at the
winning count 2 trains on the last fold's training subset
(`combine_sequences [0, 1]`), which differs from the full three-row
observation set — the returned model's training data IS a
cross-validation fold. -/
theorem spec_C1_cx :
    selectCV cx1o cx1s = some (combine_sequences [0, 1] cx1s.sequences, 2) ∧
    combine_sequences [0, 1] cx1s.sequences ≠ (cx1s.X, cx1s.lengths) := by
  constructor
  · norm_num [selectCV, cvBest, cvFinal, cvResults, cvLoop, cvFolds,
      kfoldSplit, kfoldBuild, combine_sequences, mean, pyRange, List.range',
      argmaxIdx, cx1o, cx1s, traceOracle, List.filterMap_cons,
      List.replicate, List.range_succ, List.range_zero,
      List.getElem?_cons_zero, List.getElem?_cons_succ]
  · norm_num [combine_sequences, cx1s]

/-- C1 (amended): only when the word has at most two example sequences
(no fold ever runs) is the winning state count refit on the word's full,
unsplit observation set; with more than two sequences the final refit reads
the buffer as the fold loop left it (see the counterexample). -/
theorem spec_C1 (M : Type) (o : Oracle M) (s : Selector)
    (hle : s.sequences.length ≤ 2) :
    selectCV o s = o.fit (s.X, s.lengths) (cvBest o s) := by
  rw [selectCV, cvFinal_of_le_two o s hle]

/-- C1 witness: the two-sequence word is refit on its full data. -/
theorem spec_C1_witness :
    selectCV idOracle w8s =
      idOracle.fit (w8s.X, w8s.lengths) (cvBest idOracle w8s) :=
  spec_C1 Nat idOracle w8s (by norm_num [w8s])

/-- The successful BIC candidates appear in ascending state-count order. -/
theorem bicResults_fst_pairwise {M : Type} (o : Oracle M) (lognat : Nat → ℚ)
    (s : Selector) :
    ((bicResults o lognat s).map Prod.fst).Pairwise (· < ·) := by
  unfold bicResults
  refine List.Pairwise.sublist (map_fst_filterMap_sublist _ _ ?_)
    (pyRange_pairwise _ _)
  intro a p hp
  rcases Option.map_eq_some'.mp hp with ⟨l, hl, heq⟩
  rw [← heq]

/-- The successful DIC candidates appear in ascending state-count order. -/
theorem dicResults_fst_pairwise {M : Type} (o : Oracle M) (s : Selector) :
    ((dicResults o s).map Prod.fst).Pairwise (· < ·) := by
  unfold dicResults
  refine List.Pairwise.sublist (map_fst_filterMap_sublist _ _ ?_)
    (pyRange_pairwise _ _)
  intro a p hp
  rcases Option.map_eq_some'.mp hp with ⟨l, hl, heq⟩
  rw [← heq]

/-- The successful CV candidates appear in ascending state-count order. -/
theorem cvResults_fst_pairwise {M : Type} (o : Oracle M) (s : Selector) :
    ((cvResults o s).map Prod.fst).Pairwise (· < ·) := by
  rw [cvResults_eq]
  refine List.Pairwise.sublist (map_fst_filterMap_sublist _ _ ?_)
    (pyRange_pairwise _ _)
  intro a p hp
  rcases Option.map_eq_some'.mp hp with ⟨v, hv, heq⟩
  rw [← heq]

/-- C10: because candidates are swept in ascending state-count order and
`np.argmin` / `np.argmax` take the first optimal index, whenever several
successful candidates tie for the optimal score (minimal BIC, maximal DIC
with at least three successes, maximal averaged CV likelihood), the
selected state count is at most that of every tied-optimal candidate —
i.e. the smallest tied state count wins. -/
theorem spec_C10 (M : Type) (o : Oracle M) (lognat : Nat → ℚ) (s : Selector) :
    (∀ p ∈ bicResults o lognat s,
      (∀ q ∈ bicResults o lognat s, p.2 ≤ q.2) → bicBest o lognat s ≤ p.1)
    ∧ (3 ≤ (dicResults o s).length →
      ∀ p ∈ dicResults o s,
        (∀ q ∈ dicResults o s,
          dicScore (dicResults o s) q.2 ≤ dicScore (dicResults o s) p.2) →
        dicBest o s ≤ p.1)
    ∧ (∀ p ∈ cvResults o s,
      (∀ q ∈ cvResults o s, q.2 ≤ p.2) → cvBest o s ≤ p.1) := by
  refine ⟨?_, ?_, ?_⟩
  · intro p hp htie
    have hne : bicResults o lognat s ≠ [] := List.ne_nil_of_mem hp
    have hemp : (bicResults o lognat s).isEmpty = false :=
      List.isEmpty_eq_false.mpr hne
    have hb : bicBest o lognat s =
        ((bicResults o lognat s).map Prod.fst).getD
          (argminIdx ((bicResults o lognat s).map Prod.snd)) 0 := by
      simp only [bicBest, hemp, Bool.false_eq_true, if_false]
    rw [hb]
    exact argmin_first_le _ Prod.snd (bicResults_fst_pairwise o lognat s) p hp
      htie
  · intro h3 p hp htie
    have h1 : 1 < (dicResults o s).length - 1 := by omega
    have hb : dicBest o s =
        ((dicResults o s).map Prod.fst).getD
          (argmaxIdx ((dicResults o s).map
            fun q => dicScore (dicResults o s) q.2)) 0 := by
      simp only [dicBest, if_pos h1]
    rw [hb]
    exact argmax_first_le _ _ (dicResults_fst_pairwise o s) p hp htie
  · intro p hp htie
    have hne : cvResults o s ≠ [] := List.ne_nil_of_mem hp
    have hemp : (cvResults o s).isEmpty = false :=
      List.isEmpty_eq_false.mpr hne
    have hb : cvBest o s =
        ((cvResults o s).map Prod.fst).getD
          (argmaxIdx ((cvResults o s).map Prod.snd)) 0 := by
      simp only [cvBest, hemp, Bool.false_eq_true, if_false]
    rw [hb]
    exact argmax_first_le _ Prod.snd (cvResults_fst_pairwise o s) p hp htie

/-- C10 witness: with the all-ties oracle on range `[2, 4]`, every selector
picks a count at most 2 — the smallest tied candidate. -/
theorem spec_C10_witness :
    bicBest tieOracle (fun _ => 0) sel_2_4 ≤ 2 ∧
    dicBest tieOracle sel_2_4 ≤ 2 ∧
    cvBest tieOracle sel_2_4 ≤ 2 := by
  have hbicres : bicResults tieOracle (fun _ => 0) sel_2_4 =
      [(2, 0), (3, 0), (4, 0)] := by
    norm_num [bicResults, pyRange, List.range', candLogL, base_model,
      tieOracle, sel_2_4, List.filterMap_cons, bicParams]
  have hdicres : dicResults tieOracle sel_2_4 = [(2, 0), (3, 0), (4, 0)] := by
    norm_num [dicResults, pyRange, List.range', candLogL, base_model,
      tieOracle, sel_2_4, List.filterMap_cons]
  have hcvres : cvResults tieOracle sel_2_4 = [(2, 0), (3, 0), (4, 0)] := by
    norm_num [cvResults, cvLoop, pyRange, List.range', tieOracle, sel_2_4]
  have h := spec_C10 Nat tieOracle (fun _ => 0) sel_2_4
  refine ⟨?_, ?_, ?_⟩
  · exact h.1 (2, 0) (by rw [hbicres]; simp)
      (by intro q hq; rw [hbicres] at hq; fin_cases hq <;> norm_num)
  · exact h.2.1 (by rw [hdicres]; norm_num) (2, 0) (by rw [hdicres]; simp)
      (by intro q hq; rw [hdicres] at hq; fin_cases hq <;> norm_num)
  · exact h.2.2 (2, 0) (by rw [hcvres]; simp)
      (by intro q hq; rw [hcvres] at hq; fin_cases hq <;> norm_num)


end ASL
